import Mathlib

/-!
Verification development for the vinox-voxel-formats chunk store and raycast engine
(`src/level.rs`, `src/raycast.rs`).

Machine integers are modelled as `Nat`/`Int` with explicit `% 2^32` where u32/i32
wraparound matters.  The `f32` arithmetic inside `to_chunk` (the only place where
float rounding is observable for the claims below) is modelled exactly: `f32round`
is round-to-nearest-even at 24 bits of significand, which is the IEEE-754 binary32
behaviour of `u32 as f32`, `/` and `floor` on the whole range of values that occurs
here (no overflow, no subnormals, non-negative inputs).  The raycast arithmetic is
modelled over exact rationals extended with `+∞` (`FQ`); on the values exercised by
the theorems below (halves and small integers) binary32 arithmetic is exact, so the
model agrees with the source.

`Rat.add` and friends are `@[irreducible]` in Batteries, which blocks only the
elaborator's evaluation (the kernel ignores reducibility); they are unsealed so
that `decide` can evaluate concrete levels and rays.
-/

unseal Rat.mul Rat.add Rat.sub Rat.inv

/-- Fuel-driven base-2 logarithm on `Nat` (structural recursion so that the kernel
can evaluate it; `Nat.log2` in core is well-founded and does not reduce). -/
def nlog2Aux : Nat → Nat → Nat
  | 0, _ => 0
  | fuel+1, n => if n ≤ 1 then 0 else nlog2Aux fuel (n / 2) + 1

/-- `nlog2 n = ⌊log₂ n⌋` for `n ≥ 1` (and `0` for `n = 0`). -/
def nlog2 (n : Nat) : Nat := nlog2Aux n n

/-- Floor of a rational as an integer, computably: the denominator is positive, so
floor division of numerator by denominator is the floor. -/
def ratFloor (q : ℚ) : ℤ := Int.fdiv q.num q.den

/-- `2^e` in `ℚ` for an integer exponent, computably (avoids the generic `zpow`). -/
def qpow2 (e : ℤ) : ℚ :=
  if 0 ≤ e then ((2^(e.toNat) : Nat) : ℚ) else (1 : ℚ) / ((2^((-e).toNat) : Nat) : ℚ)

/-- Round a rational to the nearest integer, ties to even: the IEEE-754 default
rounding used by all binary32 operations. -/
def roundHalfEven (q : ℚ) : ℤ :=
  let f := ratFloor q
  let r := q - f
  if r < 1/2 then f else if 1/2 < r then f + 1 else if f % 2 = 0 then f else f + 1

/-- `⌊log₂ q⌋` for a positive rational, via `nlog2` on numerator and denominator
with a one-step correction. -/
def qlog2 (q : ℚ) : ℤ :=
  let e0 : ℤ := (nlog2 q.num.toNat : ℤ) - (nlog2 q.den : ℤ)
  if q < qpow2 e0 then e0 - 1 else e0

/-- Exact model of rounding a real (here: rational) value to binary32, for
positive normal-range values: round the significand `q·2^(23-e)` to the nearest
integer (ties to even) and scale back.  Values `≤ 0` only occur in this
development as the exact zero, which is returned unchanged. -/
def f32round (q : ℚ) : ℚ :=
  if q ≤ 0 then 0
  else (roundHalfEven (q * qpow2 ((23:ℤ) - qlog2 q)) : ℚ) * qpow2 (qlog2 q - 23)

/-- `n as f32` for a `u32` value: exact binary32 conversion (round to nearest even). -/
def f32ofNat (n : Nat) : ℚ := f32round (n : ℚ)

/-- Binary32 division: exact quotient, then one correctly-rounded binary32 rounding. -/
def f32div (a b : ℚ) : ℚ := f32round (a / b)

/-- `z as u32` for an `f32` (applied after `floor`, so the argument is an integer):
Rust float-to-int casts saturate, negative values clamp to `0` and values above
`u32::MAX` clamp to `u32::MAX`. -/
def u32sat (z : ℤ) : Nat := (min z (2^32 - 1)).toNat

/-- `x as u32` for an `i32` value: two's-complement wraparound
(`IVec3::as_uvec3` in `VoxelLevel::raycast`), e.g. `-1` becomes `4294967295`. -/
def wrap32 (z : ℤ) : Nat := (z % 2^32).toNat

/-- `x as i32` for a `u32` value `< 2^32`: two's-complement reinterpretation. -/
def u32toI32 (n : Nat) : ℤ := if n < 2^31 then (n : ℤ) else (n : ℤ) - 2^32

/-- One component of `to_chunk` (level.rs:36-42): the source computes
`(pos as f32 / (CHUNK_SIZE as f32)).floor() as u32`; each step of that f32
pipeline is modelled exactly.  `cs` is the external `CHUNK_SIZE` constant
(from the vinox_voxel crate, not part of this repository), kept as a parameter. -/
def to_chunk1 (cs n : Nat) : Nat := u32sat (ratFloor (f32div (f32ofNat n) (f32ofNat cs)))

/-- One component of `to_relative` (level.rs:28-34): `pos.rem_euclid(CHUNK_SIZE)`
on `u32`, i.e. plain unsigned remainder. -/
def to_relative1 (cs n : Nat) : Nat := n % cs

/-- `to_chunk` on a `UVec3` (level.rs:36-42). -/
def to_chunk (cs : Nat) (p : Nat × Nat × Nat) : Nat × Nat × Nat :=
  (to_chunk1 cs p.1, to_chunk1 cs p.2.1, to_chunk1 cs p.2.2)

/-- `to_relative` on a `UVec3` (level.rs:28-34). -/
def to_relative (cs : Nat) (p : Nat × Nat × Nat) : Nat × Nat × Nat :=
  (to_relative1 cs p.1, to_relative1 cs p.2.1, to_relative1 cs p.2.2)

/-- `linearize` (level.rs:22-26).  Modelled from the spec: the flattening done by
the external `ndshape::RuntimeShape` (not in this repository) is a row-major
flatten with x fastest, `x + sx*y + sx*sy*z`, in wrapping `u32` arithmetic. -/
def linearize (s p : Nat × Nat × Nat) : Nat :=
  (p.1 + s.1 * p.2.1 + s.1 * s.2.1 * p.2.2) % 2^32

/-- Modelled from the spec: the external `ChunkData` type (vinox_voxel crate).
§6 requires only: default-constructible, `get(relative) -> Voxel`,
`set(relative, Voxel)`.  Modelled as a total map from relative coordinates. -/
structure ChunkData (V : Type) where
  vox : Nat → Nat → Nat → V

instance (V : Type) [Inhabited V] : Inhabited (ChunkData V) :=
  ⟨⟨fun _ _ _ => default⟩⟩

/-- Modelled from the spec: `Chunk::get(relative) -> Voxel`. -/
def ChunkData.get {V : Type} (c : ChunkData V) (p : Nat × Nat × Nat) : V :=
  c.vox p.1 p.2.1 p.2.2

/-- Modelled from the spec: `Chunk::set(relative, Voxel)` (pointwise update). -/
def ChunkData.set {V : Type} (c : ChunkData V) (p : Nat × Nat × Nat) (v : V) : ChunkData V :=
  ⟨fun x y z => if x = p.1 ∧ y = p.2.1 ∧ z = p.2.2 then v else c.vox x y z⟩

/-- The fields of `VoxelLevel` (level.rs:46-60) that the claims are about:
the fixed extent and the optional dense chunk array.  The registries, the
atlas bytes and the serialization mirror play no role in the claims below. -/
structure VoxelLevel (V : Type) where
  level_size : Nat × Nat × Nat
  loaded_chunks : Option (List (ChunkData V))

/-- `VoxelLevel::new` (level.rs:80-107): builds `vec![default; sx*sy*sz]`, then —
exactly as the source does — calls `Vec::insert` (which shifts, growing the
vector) at `linearize(pos)` for every chunk position.  The `u32` product is
wrapping; `Vec::insert` with an index past the end would panic, which never
happens here (the index is always within the current length); `List.insertIdx`
would return the list unchanged in that unreachable case. -/
def VoxelLevel.new (V : Type) [Inhabited V] (s : Nat × Nat × Nat) : VoxelLevel V :=
  let lc0 : List (ChunkData V) := List.replicate ((s.1 * s.2.1 * s.2.2) % 2^32) default
  let lc := (List.range s.1).foldl (fun acc x =>
    (List.range s.2.1).foldl (fun acc y =>
      (List.range s.2.2).foldl (fun acc z =>
        acc.insertIdx (linearize s (x, y, z)) default) acc) acc) lc0
  { level_size := s, loaded_chunks := some lc }

/-- `VoxelLevel::set_voxel` (level.rs:109-121): map to chunk + relative, fetch the
slot at the linearized index (`get_mut`), and mutate it in place; absent slot
(index out of the array) or absent array means no change. -/
def VoxelLevel.set_voxel {V : Type} (cs : Nat) (lvl : VoxelLevel V)
    (voxel_pos : Nat × Nat × Nat) (voxel : V) : VoxelLevel V :=
  let chunk_pos := to_chunk cs voxel_pos
  let relative_pos := to_relative cs voxel_pos
  match lvl.loaded_chunks with
  | none => lvl
  | some l =>
    match l.get? (linearize lvl.level_size chunk_pos) with
    | none => lvl
    | some c =>
      let l' := l.set (linearize lvl.level_size chunk_pos) (c.set relative_pos voxel)
      { lvl with loaded_chunks := some l' }

/-- `VoxelLevel::get_voxel` (level.rs:123-132): map to chunk + relative, fetch the
slot at the linearized index, and read the voxel; `none` exactly when the array
is absent or the flat index is out of bounds. -/
def VoxelLevel.get_voxel {V : Type} (cs : Nat) (lvl : VoxelLevel V)
    (voxel_pos : Nat × Nat × Nat) : Option V :=
  let chunk_pos := to_chunk cs voxel_pos
  let relative_pos := to_relative cs voxel_pos
  (lvl.loaded_chunks.bind (fun l => l.get? (linearize lvl.level_size chunk_pos))).map
    (fun c => c.get relative_pos)

/-- `VoxelLevel::get_chunk` (level.rs:273-279). -/
def VoxelLevel.get_chunk {V : Type} (lvl : VoxelLevel V)
    (chunk_pos : Nat × Nat × Nat) : Option (ChunkData V) :=
  lvl.loaded_chunks.bind (fun l => l.get? (linearize lvl.level_size chunk_pos))

/-- Modelled from the spec: `ChunkPos::neighbors()` (vinox_voxel crate, not in this
repository) enumerates the 26 offsets of `{-1,0,1}³ \ {0}` in a fixed order. -/
def neighborOffsets : List (ℤ × ℤ × ℤ) :=
  [(-1,-1,-1),(-1,-1,0),(-1,-1,1),(-1,0,-1),(-1,0,0),(-1,0,1),(-1,1,-1),(-1,1,0),(-1,1,1),
   (0,-1,-1),(0,-1,0),(0,-1,1),(0,0,-1),(0,0,1),(0,1,-1),(0,1,0),(0,1,1),
   (1,-1,-1),(1,-1,0),(1,-1,1),(1,0,-1),(1,0,0),(1,0,1),(1,1,-1),(1,1,0),(1,1,1)]

/-- `VoxelLevel::get_chunk_neighbors_pos` (level.rs:281-316): cast the chunk
coordinate to `i32`, add each of the 26 offsets, report `none` for any neighbor
with a negative component, otherwise cast back to `u32` and report the position
iff the flat lookup in the chunk array succeeds.  The upper-bound clamp is
commented out in the source, so only the sign check and the flat-array bounds
check classify a neighbor. -/
def VoxelLevel.get_chunk_neighbors_pos {V : Type} (lvl : VoxelLevel V)
    (chunk_pos : Nat × Nat × Nat) : Option (List (Option (Nat × Nat × Nat))) :=
  let vox_neighbors := neighborOffsets.map (fun o =>
    (u32toI32 chunk_pos.1 + o.1, u32toI32 chunk_pos.2.1 + o.2.1, u32toI32 chunk_pos.2.2 + o.2.2))
  lvl.loaded_chunks.map (fun x =>
    vox_neighbors.map (fun n =>
      if 0 ≤ n.1 ∧ 0 ≤ n.2.1 ∧ 0 ≤ n.2.2 then
        (if (x.get? (linearize lvl.level_size (wrap32 n.1, wrap32 n.2.1, wrap32 n.2.2))).isSome
         then some (wrap32 n.1, wrap32 n.2.1, wrap32 n.2.2)
         else none)
      else none))

/-- In-extent test for a chunk coordinate: strictly below `level_size` on every
axis (the claims' notion of a loaded-extent coordinate). -/
def inExtent (s p : Nat × Nat × Nat) : Bool :=
  decide (p.1 < s.1) && decide (p.2.1 < s.2.1) && decide (p.2.2 < s.2.2)

/-! ## Raycast engine (`src/raycast.rs`) -/

/-- A binary32 value as it occurs in the raycast: either an exact finite rational
or `+∞` (from division by zero; `-∞`/NaN never arise on the values the raycast
produces: `tMax` and `tDelta` components are positive or `+∞`). -/
inductive FQ where
  | fin (q : ℚ)
  | inf
deriving DecidableEq

/-- f32 `<` restricted to the values above: `+∞` is greater than everything. -/
def FQ.blt : FQ → FQ → Bool
  | .fin a, .fin b => decide (a < b)
  | .fin _, .inf => true
  | .inf, _ => false

/-- f32 `x > radius` for finite `radius`. -/
def FQ.bgt : FQ → ℚ → Bool
  | .fin a, r => decide (r < a)
  | .inf, _ => true

/-- f32 `+` on the values above (`+∞` absorbs). -/
def FQ.add : FQ → FQ → FQ
  | .fin a, .fin b => .fin (a + b)
  | _, _ => .inf

/-- Extract the finite value; the `+∞` case is unreachable at every use site
(it is only read after a `bgt radius` comparison has ruled `+∞` out). -/
def FQ.unfin : FQ → ℚ
  | .fin a => a
  | .inf => 0

/-- `f32::signum` of a direction component: `1` for non-negative (Rust maps
`+0.0` to `1.0`; `ℚ` has no negative zero), `-1` for negative. -/
def qsgn (d : ℚ) : ℚ := if d < 0 then -1 else 1

/-- `step / direction` for one component (raycast.rs:27): division by zero in
f32 yields `+∞` (the signs always agree, so `-∞` never arises). -/
def qdivF (s d : ℚ) : FQ := if d = 0 then FQ.inf else FQ.fin (s / d)

/-- `s.rem_euclid(1.0)` (raycast.rs:105): the Euclidean fractional part. -/
def remEuclid1 (s : ℚ) : ℚ := s - ratFloor s

/-- Body of `intbound` for `ds ≥ 0` (raycast.rs:104-107): `(1 - frac s) / ds`,
which in f32 is `+∞` when `ds = 0` (the numerator is positive). -/
def intboundNN (s ds : ℚ) : FQ :=
  if ds = 0 then FQ.inf else FQ.fin ((1 - remEuclid1 s) / ds)

/-- `intbound` (raycast.rs:101-108): reflect once when `ds < 0`. -/
def intbound (s ds : ℚ) : FQ :=
  if ds < 0 then intboundNN (-s) (-ds) else intboundNN s ds

/-- Exact square root on the perfect squares of `ℚ` (and `0` elsewhere): the
f32 `sqrt` of the direction length is only taken on perfect squares in the
theorems below (length `1`), where binary32 `sqrt` is exact. -/
def ratSqrt (q : ℚ) : ℚ :=
  if 0 ≤ q.num ∧ (Nat.sqrt q.num.toNat)^2 = q.num.toNat ∧ (Nat.sqrt q.den)^2 = q.den
  then ((Nat.sqrt q.num.toNat : ℕ) : ℚ) / ((Nat.sqrt q.den : ℕ) : ℚ)
  else 0

/-- The mutable state of the raycast loop (raycast.rs:17-38): the three pending
`tMax` values, the current voxel (kept as floats in the source, always
integer-valued), the accumulated face normal, and `lastmax`. -/
structure RayState where
  tmax : FQ × FQ × FQ
  current : ℚ × ℚ × ℚ
  face : ℚ × ℚ × ℚ
  lastmax : ℚ
deriving DecidableEq

/-- Modelled from the spec: `VoxelPos::to_offsets()` (vinox_voxel crate, not in
this repository) splits a world voxel position into (relative, chunk):
`relative = world mod CHUNK_SIZE` (Euclidean), `chunk = floor(world / CHUNK_SIZE)`. -/
def to_offsets (cs : Nat) (vp : ℤ × ℤ × ℤ) : (Nat × Nat × Nat) × (ℤ × ℤ × ℤ) :=
  (((vp.1.emod cs).toNat, (vp.2.1.emod cs).toNat, (vp.2.2.emod cs).toNat),
   (vp.1.fdiv cs, vp.2.1.fdiv cs, vp.2.2.fdiv cs))

/-- A raycast hit (raycast.rs:11): `(chunk_pos, relative_pos, face, distance)`. -/
abbrev RayHit := (ℤ × ℤ × ℤ) × (Nat × Nat × Nat) × (ℚ × ℚ × ℚ) × ℚ

instance : DecidableEq ((Nat × Nat × Nat) × (ℚ × ℚ × ℚ) × ℚ) := inferInstance

instance : DecidableEq RayHit := inferInstance

/-- The advancing step of the raycast loop (raycast.rs:53-95), verbatim nested
comparisons: pick an axis by the `tmax.x < tmax.y` / `< tmax.z` / `tmax.y <
tmax.z` cascade; `none` means the `tMax > radius` break (no-hit), otherwise the
state is advanced along the chosen axis. -/
def advance (step : ℚ × ℚ × ℚ) (tdelta : FQ × FQ × FQ) (radius : ℚ)
    (st : RayState) : Option RayState :=
  if FQ.blt st.tmax.1 st.tmax.2.1 then
    if FQ.blt st.tmax.1 st.tmax.2.2 then
      if FQ.bgt st.tmax.1 radius then none
      else some { tmax := (FQ.add st.tmax.1 tdelta.1, st.tmax.2.1, st.tmax.2.2),
                  current := (st.current.1 + step.1, st.current.2.1, st.current.2.2),
                  face := (-step.1, 0, 0), lastmax := FQ.unfin st.tmax.1 }
    else
      if FQ.bgt st.tmax.2.2 radius then none
      else some { tmax := (st.tmax.1, st.tmax.2.1, FQ.add st.tmax.2.2 tdelta.2.2),
                  current := (st.current.1, st.current.2.1, st.current.2.2 + step.2.2),
                  face := (0, 0, -step.2.2), lastmax := FQ.unfin st.tmax.2.2 }
  else if FQ.blt st.tmax.2.1 st.tmax.2.2 then
    if FQ.bgt st.tmax.2.1 radius then none
    else some { tmax := (st.tmax.1, FQ.add st.tmax.2.1 tdelta.2.1, st.tmax.2.2),
                current := (st.current.1, st.current.2.1 + step.2.1, st.current.2.2),
                face := (0, -step.2.1, 0), lastmax := FQ.unfin st.tmax.2.1 }
  else
    if FQ.bgt st.tmax.2.2 radius then none
    else some { tmax := (st.tmax.1, st.tmax.2.1, FQ.add st.tmax.2.2 tdelta.2.2),
                current := (st.current.1, st.current.2.1, st.current.2.2 + step.2.2),
                face := (0, 0, -step.2.2), lastmax := FQ.unfin st.tmax.2.2 }

/-- The axis the advancing step works on, written as the spec's amended
tie-break rule (x only when strictly smallest, y when x is not below y and y is
strictly below z, z otherwise): `0`, `1`, `2` for x, y, z. -/
def axisOf (tm : FQ × FQ × FQ) : Fin 3 :=
  if FQ.blt tm.1 tm.2.1 && FQ.blt tm.1 tm.2.2 then 0
  else if !FQ.blt tm.1 tm.2.1 && FQ.blt tm.2.1 tm.2.2 then 1
  else 2

/-- The `tMax` component on a given axis. -/
def tmaxAt (i : Fin 3) (tm : FQ × FQ × FQ) : FQ :=
  match i with
  | 0 => tm.1
  | 1 => tm.2.1
  | 2 => tm.2.2

/-- The shared per-axis body of the advancing step, dispatched on an explicit
axis: break when that axis's `tMax` exceeds `radius`, else record `lastmax`,
step the current voxel, bump that axis's `tMax`, set the face normal. -/
def advanceAlong (i : Fin 3) (step : ℚ × ℚ × ℚ) (tdelta : FQ × FQ × FQ) (radius : ℚ)
    (st : RayState) : Option RayState :=
  match i with
  | 0 =>
    if FQ.bgt st.tmax.1 radius then none
    else some { tmax := (FQ.add st.tmax.1 tdelta.1, st.tmax.2.1, st.tmax.2.2),
                current := (st.current.1 + step.1, st.current.2.1, st.current.2.2),
                face := (-step.1, 0, 0), lastmax := FQ.unfin st.tmax.1 }
  | 1 =>
    if FQ.bgt st.tmax.2.1 radius then none
    else some { tmax := (st.tmax.1, FQ.add st.tmax.2.1 tdelta.2.1, st.tmax.2.2),
                current := (st.current.1, st.current.2.1 + step.2.1, st.current.2.2),
                face := (0, -step.2.1, 0), lastmax := FQ.unfin st.tmax.2.1 }
  | 2 =>
    if FQ.bgt st.tmax.2.2 radius then none
    else some { tmax := (st.tmax.1, st.tmax.2.1, FQ.add st.tmax.2.2 tdelta.2.2),
                current := (st.current.1, st.current.2.1, st.current.2.2 + step.2.2),
                face := (0, 0, -step.2.2), lastmax := FQ.unfin st.tmax.2.2 }

/-- The raycast loop (raycast.rs:40-97).  The source's loop counter is bounded by
`cap`; `fuel` starts at `cap + 1`, so the fuel can only run out in the very
iteration in which the `counter > cap` guard fires anyway (structural recursion
with identical semantics). -/
def loopGo (cs : Nat) (pred : ℤ × ℤ × ℤ → Bool) (step : ℚ × ℚ × ℚ)
    (tdelta : FQ × FQ × FQ) (dlen radius : ℚ) (cap : Nat) :
    Nat → Nat → RayState → Option RayHit
  | 0, _, _ => none
  | fuel+1, counter, st =>
    if cap < counter then none
    else
      let voxel_pos : ℤ × ℤ × ℤ :=
        (ratFloor st.current.1, ratFloor st.current.2.1, ratFloor st.current.2.2)
      if pred voxel_pos then
        some ((to_offsets cs voxel_pos).2, (to_offsets cs voxel_pos).1,
              st.face, st.lastmax * dlen)
      else
        match advance step tdelta radius st with
        | none => none
        | some st' => loopGo cs pred step tdelta dlen radius cap fuel (counter+1) st'

/-- `raycast_world` (raycast.rs:6-99).  `cs` is the external `CHUNK_SIZE` (only
used for the hit's (chunk, relative) decomposition).  The source computes
`tmax`, `current_block`, `step`, `tdelta` before the zero-direction check and
rescales `radius` by the direction length after it; `VoxelPos::from` of the f32
origin is the componentwise floor (spec §4.4 step 5); the iteration cap is
`(radius * 4.0) as u32` on the rescaled radius. -/
def raycast_world (cs : Nat) (origin direction : ℚ × ℚ × ℚ) (radius : ℚ)
    (pred : ℤ × ℤ × ℤ → Bool) : Option RayHit :=
  let tmax := (intbound origin.1 direction.1, intbound origin.2.1 direction.2.1,
               intbound origin.2.2 direction.2.2)
  let current : ℚ × ℚ × ℚ :=
    ((ratFloor origin.1 : ℤ), (ratFloor origin.2.1 : ℤ), (ratFloor origin.2.2 : ℤ))
  let step := (qsgn direction.1, qsgn direction.2.1, qsgn direction.2.2)
  let tdelta := (qdivF (qsgn direction.1) direction.1,
                 qdivF (qsgn direction.2.1) direction.2.1,
                 qdivF (qsgn direction.2.2) direction.2.2)
  if direction = ((0:ℚ), (0:ℚ), (0:ℚ)) then none
  else
    let dlen := ratSqrt (direction.1 * direction.1 + direction.2.1 * direction.2.1 +
                         direction.2.2 * direction.2.2)
    let radius' := radius / dlen
    let cap := u32sat (ratFloor (radius' * 4))
    loopGo cs pred step tdelta dlen radius' cap (cap + 1) 0
      { tmax := tmax, current := current, face := ((0:ℚ), (0:ℚ), (0:ℚ)), lastmax := 0 }

/-- The occupancy closure `VoxelLevel::raycast` passes to `raycast_world`
(level.rs:263-270): each `i32` component of the candidate voxel position is cast
to `u32` with two's-complement wraparound (`IVec3::as_uvec3`), `get_voxel` is
queried there, and a present voxel counts as occupied iff it is not empty (the
source's `if let Some(voxel) ... else false` is `Option.map` + `getD false`). -/
def VoxelLevel.raycastOccupied {V : Type} (cs : Nat) (isEmptyV : V → Bool)
    (lvl : VoxelLevel V) (vox_pos : ℤ × ℤ × ℤ) : Bool :=
  ((lvl.get_voxel cs (wrap32 vox_pos.1, wrap32 vox_pos.2.1, wrap32 vox_pos.2.2)).map
    (fun voxel => !(isEmptyV voxel))).getD false

/-- `VoxelLevel::raycast` (level.rs:257-271): `raycast_world` with the wrapping
occupancy closure.  `isEmptyV` stands for the external `Voxel::is_empty`
(with the level's block registry already applied). -/
def VoxelLevel.raycast {V : Type} (cs : Nat) (isEmptyV : V → Bool) (lvl : VoxelLevel V)
    (origin direction : ℚ × ℚ × ℚ) (radius : ℚ) : Option RayHit :=
  raycast_world cs origin direction radius (lvl.raycastOccupied cs isEmptyV)

/-! ## Texture-name suffix handling (`load_textures`, level.rs:148-204)

Only the pure per-texture registry update is modelled (the packer and image IO
are external).  Rust `&str` values are modelled as `List Char`. -/

/-- `name.split('_').last().unwrap_or_default()` (level.rs:150): the part after
the last underscore (the whole name when there is none). -/
def lastComponent (name : List Char) : List Char :=
  ((name.reverse.takeWhile (fun c => c ≠ ('_'))).reverse)

/-- level.rs:151-159: `name.rfind('_')` and `name.get(0..pos)` — the part before
the last underscore, or the whole name when there is none. -/
def baseName (name : List Char) : List Char :=
  if ('_') ∈ name then ((name.reverse.dropWhile (fun c => c ≠ ('_'))).drop 1).reverse
  else name

/-- One iteration of the texture loop in `load_textures` (level.rs:148-204):
fetch the existing 6 face rectangles for the base name (or default-initialize
all six slots with this texture's rectangle), overwrite the slots selected by
the suffix (slot order west, east, down, up, south, north), and store the
result under the base name. -/
def load_textures_apply {α : Type} (reg : List Char → Option (List α))
    (name : List Char) (rect : α) : List Char → Option (List α) :=
  let identifier := lastComponent name
  let final_name := baseName name
  let rects0 := match reg final_name with
    | some rects => rects
    | none => [rect, rect, rect, rect, rect, rect]
  let rects := match identifier with
    | ['s','i','d','e'] => ((((rects0.set 0 rect).set 1 rect).set 4 rect).set 5 rect)
    | ['w','e','s','t'] => rects0.set 0 rect
    | ['e','a','s','t'] => rects0.set 1 rect
    | ['s','o','u','t','h'] => rects0.set 4 rect
    | ['n','o','r','t','h'] => rects0.set 5 rect
    | ['u','p'] => rects0.set 3 rect
    | ['d','o','w','n'] => rects0.set 2 rect
    | _ => rects0
  fun k => if k = final_name then some rects else reg k

/-! ## Helper lemmas: correctness of the exact binary32 model -/

theorem nlog2Aux_spec : ∀ (fuel n : Nat), n ≤ fuel → 1 ≤ n →
    2 ^ (nlog2Aux fuel n) ≤ n ∧ n < 2 ^ (nlog2Aux fuel n + 1) := by
  intro fuel
  induction fuel with
  | zero => intro n h1 h2; omega
  | succ fuel ih =>
    intro n hle h1
    rw [nlog2Aux]
    by_cases h : n ≤ 1
    · simp only [h, if_true]
      constructor
      · simpa using h1
      · simpa using by omega
    · simp only [h, if_false]
      have hrec := ih (n / 2) (by omega) (by omega)
      have hp : (2:ℕ) ^ (nlog2Aux fuel (n / 2) + 1) = 2 ^ (nlog2Aux fuel (n / 2)) * 2 := by
        rw [pow_succ]
      have hp2 : (2:ℕ) ^ (nlog2Aux fuel (n / 2) + 1 + 1) = 2 ^ (nlog2Aux fuel (n / 2) + 1) * 2 := by
        rw [pow_succ]
      obtain ⟨hl, hr⟩ := hrec
      constructor
      · rw [hp]
        omega
      · rw [hp2]
        omega

theorem nlog2_spec (n : Nat) (h : 1 ≤ n) : 2 ^ (nlog2 n) ≤ n ∧ n < 2 ^ (nlog2 n + 1) :=
  nlog2Aux_spec n n le_rfl h

theorem ratFloor_eq (q : ℚ) : ratFloor q = ⌊q⌋ := by
  rw [ratFloor, Rat.floor_def, Int.fdiv_eq_ediv _ (by positivity)]

theorem qpow2_eq (e : ℤ) : qpow2 e = (2:ℚ) ^ e := by
  rw [qpow2]
  split_ifs with h
  · conv_rhs => rw [← Int.toNat_of_nonneg h]
    rw [zpow_natCast]
    push_cast
    ring
  · push_neg at h
    have he : e = -((-e).toNat : ℤ) := by omega
    conv_rhs => rw [he]
    rw [zpow_neg, zpow_natCast]
    push_cast
    rw [one_div]

theorem roundHalfEven_intCast (n : ℤ) : roundHalfEven (n : ℚ) = n := by
  rw [roundHalfEven]
  simp only [ratFloor_eq, Int.floor_intCast]
  norm_num

theorem qlog2_spec (q : ℚ) (hq : 0 < q) :
    (2:ℚ) ^ (qlog2 q) ≤ q ∧ q < (2:ℚ) ^ (qlog2 q + 1) := by
  have hnum : 0 < q.num := Rat.num_pos.mpr hq
  set a := q.num.toNat with ha_def
  set b := q.den with hb_def
  have ha : 1 ≤ a := by omega
  have hb : 1 ≤ b := q.pos
  obtain ⟨hla1, hla2⟩ := nlog2_spec a ha
  obtain ⟨hlb1, hlb2⟩ := nlog2_spec b hb
  set la := nlog2 a with hla_def
  set lb := nlog2 b with hlb_def
  have hcast : ((a : ℚ)) = ((q.num : ℚ)) := by
    rw [ha_def]
    exact_mod_cast congrArg (fun z => ((z : ℤ) : ℚ)) (Int.toNat_of_nonneg hnum.le)
  have hqe : q = (a : ℚ) / (b : ℚ) := by
    rw [hcast, hb_def]
    exact (Rat.num_div_den q).symm
  have hbq : (0:ℚ) < b := by exact_mod_cast hb
  have h2la : (2:ℚ)^((la:ℤ)) ≤ (a:ℚ) := by rw [zpow_natCast]; exact_mod_cast hla1
  have h2la2 : (a:ℚ) < (2:ℚ)^((la:ℤ)+1) := by
    have : ((la:ℤ)+1) = ((la+1 : ℕ) : ℤ) := by push_cast; ring
    rw [this, zpow_natCast]
    exact_mod_cast hla2
  have h2lb : (2:ℚ)^((lb:ℤ)) ≤ (b:ℚ) := by rw [zpow_natCast]; exact_mod_cast hlb1
  have h2lb2 : (b:ℚ) < (2:ℚ)^((lb:ℤ)+1) := by
    have : ((lb:ℤ)+1) = ((lb+1 : ℕ) : ℤ) := by push_cast; ring
    rw [this, zpow_natCast]
    exact_mod_cast hlb2
  have blow : (2:ℚ) ^ ((la:ℤ) - lb - 1) < q := by
    have heq : (2:ℚ) ^ ((la:ℤ) - lb - 1) = (2:ℚ)^((la:ℤ)) / (2:ℚ)^((lb:ℤ)+1) := by
      rw [← zpow_sub₀ (two_ne_zero)]
      congr 1
      ring
    rw [heq, hqe]
    calc (2:ℚ)^((la:ℤ)) / (2:ℚ)^((lb:ℤ)+1) < (2:ℚ)^((la:ℤ)) / (b:ℚ) := by
          apply div_lt_div_of_pos_left (by positivity) hbq h2lb2
      _ ≤ (a:ℚ) / (b:ℚ) := by gcongr
  have bhigh : q < (2:ℚ) ^ ((la:ℤ) + 1 - lb) := by
    have heq : (2:ℚ) ^ ((la:ℤ) + 1 - lb) = (2:ℚ)^((la:ℤ)+1) / (2:ℚ)^((lb:ℤ)) := by
      rw [← zpow_sub₀ (two_ne_zero)]
    rw [heq, hqe]
    calc (a:ℚ) / (b:ℚ) < (2:ℚ)^((la:ℤ)+1) / (b:ℚ) := by gcongr
      _ ≤ (2:ℚ)^((la:ℤ)+1) / (2:ℚ)^((lb:ℤ)) := by
          apply div_le_div_of_nonneg_left (by positivity) (by positivity) h2lb
  rw [qlog2]
  simp only [← ha_def, ← hb_def, ← hla_def, ← hlb_def, qpow2_eq]
  split_ifs with hc
  · refine ⟨le_of_lt blow, ?_⟩
    have he : (la:ℤ) - lb - 1 + 1 = (la:ℤ) - lb := by ring
    rw [he]
    exact hc
  · refine ⟨not_lt.mp hc, ?_⟩
    have he : (la:ℤ) - lb + 1 = (la:ℤ) + 1 - lb := by ring
    rw [he]
    exact bhigh

theorem qlog2_unique (q : ℚ) (e : ℤ) (h1 : (2:ℚ)^e ≤ q) (h2 : q < (2:ℚ)^(e+1)) :
    qlog2 q = e := by
  have hq : 0 < q := lt_of_lt_of_le (zpow_pos (by norm_num) e) h1
  obtain ⟨s1, s2⟩ := qlog2_spec q hq
  by_contra hne
  rcases lt_or_gt_of_ne hne with hlt | hgt
  · have : (2:ℚ)^(qlog2 q + 1) ≤ (2:ℚ)^e :=
      zpow_le_zpow_right₀ (by norm_num) (by omega)
    exact absurd (lt_of_lt_of_le s2 (le_trans this h1)) (lt_irrefl q)
  · have : (2:ℚ)^(e+1) ≤ (2:ℚ)^(qlog2 q) :=
      zpow_le_zpow_right₀ (by norm_num) (by omega)
    exact absurd (lt_of_lt_of_le h2 (le_trans this s1)) (lt_irrefl q)

theorem nlog2_le_of_lt (m k : ℕ) (h1 : 1 ≤ m) (h2 : m < 2^k) : nlog2 m < k := by
  obtain ⟨s1, _⟩ := nlog2_spec m h1
  by_contra hc
  push_neg at hc
  exact absurd (lt_of_lt_of_le h2 (le_trans (Nat.pow_le_pow_right (by norm_num) hc) s1))
    (lt_irrefl m)

theorem f32round_eq_self (m : ℕ) (t : ℤ) (h1 : 0 < m) (h2 : m < 2^24) :
    f32round ((m:ℚ) * (2:ℚ)^t) = (m:ℚ) * (2:ℚ)^t := by
  set q : ℚ := (m:ℚ) * (2:ℚ)^t with hq_def
  have hq : 0 < q := by
    rw [hq_def]
    have : (0:ℚ) < (m:ℚ) := by exact_mod_cast h1
    positivity
  set L := nlog2 m with hL_def
  obtain ⟨s1, s2⟩ := nlog2_spec m h1
  have hL23 : L ≤ 23 := by
    have := nlog2_le_of_lt m 24 h1 h2
    omega
  have he : qlog2 q = (L:ℤ) + t := by
    apply qlog2_unique
    · rw [hq_def]
      have hz : (2:ℚ)^((L:ℤ) + t) = (2:ℚ)^((L:ℤ)) * (2:ℚ)^t := zpow_add₀ (two_ne_zero) _ _
      rw [hz, zpow_natCast]
      have hm : (2:ℚ)^L ≤ (m:ℚ) := by exact_mod_cast s1
      have ht : (0:ℚ) < (2:ℚ)^t := zpow_pos (by norm_num) t
      exact mul_le_mul_of_nonneg_right hm (le_of_lt ht)
    · rw [hq_def]
      have hz : (2:ℚ)^((L:ℤ) + t + 1) = (2:ℚ)^((L+1:ℕ):ℤ) * (2:ℚ)^t := by
        rw [← zpow_add₀ (two_ne_zero)]
        congr 1
        push_cast
        ring
      rw [hz, zpow_natCast]
      have hm : (m:ℚ) < (2:ℚ)^(L+1) := by exact_mod_cast s2
      have ht : (0:ℚ) < (2:ℚ)^t := zpow_pos (by norm_num) t
      exact mul_lt_mul_of_pos_right hm ht
  rw [f32round, if_neg (not_le.mpr hq), he]
  have hsig : q * qpow2 ((23:ℤ) - ((L:ℤ) + t)) = ((m * 2^(23 - L) : ℕ) : ℚ) := by
    rw [qpow2_eq, hq_def]
    have h23L : ((23:ℤ) - ((L:ℤ) + t)) = ((23 - L : ℕ) : ℤ) + (-t) := by
      push_cast [Nat.cast_sub hL23]
      ring
    rw [h23L, zpow_add₀ (two_ne_zero)]
    push_cast
    rw [zpow_natCast, zpow_neg]
    field_simp
    ring
  rw [hsig]
  have hrnd : roundHalfEven ((m * 2^(23 - L) : ℕ) : ℚ) = ((m * 2^(23 - L) : ℕ) : ℤ) := by
    have : (((m * 2^(23 - L) : ℕ) : ℤ) : ℚ) = ((m * 2^(23 - L) : ℕ) : ℚ) := by push_cast; ring
    rw [← this, roundHalfEven_intCast]
  rw [hrnd, qpow2_eq]
  have hfin : (((m * 2^(23 - L) : ℕ) : ℤ) : ℚ) * (2:ℚ)^((L:ℤ) + t - 23) = q := by
    rw [hq_def]
    push_cast
    have hsplit : ((L:ℤ) + t - 23) = -(((23 - L : ℕ) : ℤ)) + t := by
      push_cast [Nat.cast_sub hL23]
      ring
    rw [hsplit, zpow_add₀ (two_ne_zero), zpow_neg, zpow_natCast]
    field_simp
    ring
  rw [hfin]

theorem f32ofNat_eq (n : ℕ) (hn : n < 2^24) : f32ofNat n = (n:ℚ) := by
  rcases Nat.eq_zero_or_pos n with h0 | hpos
  · subst h0
    rw [f32ofNat]
    norm_num [f32round]
  · have : ((n:ℚ)) = (n:ℚ) * (2:ℚ)^((0:ℤ)) := by norm_num
    rw [f32ofNat, this, f32round_eq_self n 0 hpos hn]

theorem f32ofNat_pow2 (j : ℕ) : f32ofNat (2^j) = ((2^j : ℕ) : ℚ) := by
  have hcast : ((2^j : ℕ) : ℚ) = (((1:ℕ)):ℚ) * (2:ℚ)^((j:ℤ)) := by
    push_cast
    rw [zpow_natCast]
    ring
  rw [f32ofNat, hcast, f32round_eq_self 1 j (by norm_num) (by norm_num), ← hcast]

theorem to_chunk1_pow2 (j n : ℕ) (hn : n < 2^24) :
    to_chunk1 (2^j) n = n / 2^j := by
  rw [to_chunk1, f32ofNat_eq n hn, f32ofNat_pow2 j]
  have hdivq : f32div (n:ℚ) ((2^j : ℕ) : ℚ) = (n:ℚ) / ((2^j : ℕ) : ℚ) := by
    rcases Nat.eq_zero_or_pos n with h0 | hpos
    · subst h0
      rw [f32div]
      norm_num [f32round]
    · have hq : (n:ℚ) / ((2^j : ℕ) : ℚ) = (n:ℚ) * (2:ℚ)^(-(j:ℤ)) := by
        push_cast
        rw [zpow_neg, zpow_natCast]
        field_simp
      rw [f32div, hq, f32round_eq_self n (-(j:ℤ)) hpos hn]
  rw [hdivq, ratFloor_eq, Rat.floor_natCast_div_natCast]
  rw [u32sat, ← Int.natCast_div]
  have h1 : n / 2^j ≤ n := Nat.div_le_self n (2^j)
  set k := n / 2^j with hk_def
  have h2 : ((k : ℕ) : ℤ) ≤ 2^32 - 1 := by omega
  rw [min_eq_left h2]
  simp

theorem to_relative1_lt (cs n : ℕ) (hcs : 0 < cs) : to_relative1 cs n < cs :=
  Nat.mod_lt n hcs

theorem to_chunk1_identity (j n : ℕ) (hn : n < 2^24) :
    to_chunk1 (2^j) n * 2^j + to_relative1 (2^j) n = n := by
  rw [to_chunk1_pow2 j n hn, to_relative1, Nat.mul_comm]
  exact Nat.div_add_mod n (2^j)

/-! ## Shared raycast step lemmas -/

/-- The advancing step equals the per-axis body dispatched on `axisOf`. -/
theorem advance_eq_advanceAlong (step : ℚ × ℚ × ℚ) (tdelta : FQ × FQ × FQ) (radius : ℚ)
    (st : RayState) :
    advance step tdelta radius st = advanceAlong (axisOf st.tmax) step tdelta radius st := by
  rcases st with ⟨⟨tx, ty, tz⟩, cur, face, lm⟩
  simp only [advance, advanceAlong, axisOf, tmaxAt]
  cases hxy : FQ.blt tx ty <;> cases hxz : FQ.blt tx tz <;> cases hyz : FQ.blt ty tz <;>
    simp [hxy, hxz, hyz]

/-- The advancing step breaks with no-hit exactly when the chosen axis's `tMax`
is strictly greater than the rescaled radius. -/
theorem advance_none_iff (step : ℚ × ℚ × ℚ) (tdelta : FQ × FQ × FQ) (radius : ℚ)
    (st : RayState) :
    advance step tdelta radius st = none ↔
      FQ.bgt (tmaxAt (axisOf st.tmax) st.tmax) radius = true := by
  rcases st with ⟨⟨tx, ty, tz⟩, cur, face, lm⟩
  simp only [advance, axisOf, tmaxAt]
  cases hxy : FQ.blt tx ty <;> cases hxz : FQ.blt tx tz <;> cases hyz : FQ.blt ty tz <;>
    cases hbx : FQ.bgt tx radius <;> cases hby : FQ.bgt ty radius <;>
    cases hbz : FQ.bgt tz radius <;>
    simp [hxy, hxz, hyz, hbx, hby, hbz]

/-- Elementwise characterization of the neighbor resolver: a candidate is
reported present iff all its components are non-negative and its flattened index
falls inside the chunk array (no per-axis upper bound). -/
theorem neighbors_pos_char {V : Type} (lvl : VoxelLevel V) (cp : Nat × Nat × Nat) :
    lvl.get_chunk_neighbors_pos cp = lvl.loaded_chunks.map (fun l =>
      (neighborOffsets.map (fun o =>
        (u32toI32 cp.1 + o.1, u32toI32 cp.2.1 + o.2.1, u32toI32 cp.2.2 + o.2.2))).map (fun n =>
        if 0 ≤ n.1 ∧ 0 ≤ n.2.1 ∧ 0 ≤ n.2.2 ∧
           linearize lvl.level_size (wrap32 n.1, wrap32 n.2.1, wrap32 n.2.2) < l.length
        then some (wrap32 n.1, wrap32 n.2.1, wrap32 n.2.2) else none)) := by
  rw [VoxelLevel.get_chunk_neighbors_pos]
  cases lvl.loaded_chunks with
  | none => rfl
  | some l =>
    simp only [Option.map_some']
    congr 1
    apply List.map_congr_left
    intro n _
    by_cases hA : 0 ≤ n.1 ∧ 0 ≤ n.2.1 ∧ 0 ≤ n.2.2
    · rcases Nat.lt_or_ge (linearize lvl.level_size (wrap32 n.1, wrap32 n.2.1, wrap32 n.2.2))
        l.length with hlt | hge
      · rw [if_pos hA, List.get?_eq_getElem?, List.getElem?_eq_getElem hlt]
        simp only [Option.isSome_some, if_pos trivial]
        rw [if_pos ⟨hA.1, hA.2.1, hA.2.2, hlt⟩]
      · rw [if_pos hA, List.get?_eq_none.mpr hge]
        simp only [Option.isSome_none, Bool.false_eq_true, if_false]
        rw [if_neg (by push_neg; intro _ _ _; omega)]
    · rw [if_neg hA, if_neg (fun h => hA ⟨h.1, h.2.1, h.2.2.1⟩)]

/-! ## Claim theorems -/

/-- C1 (counterexample): with `CHUNK_SIZE = 32` and a `2×2×2` level, world voxel
`(64,0,0)` maps to chunk `(2,0,0)`, which is outside the extent, yet its
flattened index `2` aliases the in-extent chunk `(0,1,0)`; after `set_voxel` at
world `(0,32,0)` (chunk `(0,1,0)`, in-extent), `get_voxel` at the out-of-extent
`(64,0,0)` returns the stored voxel instead of absent. -/
theorem c1_counterexample :
    inExtent (2, 2, 2) (to_chunk 32 (64, 0, 0)) = false ∧
    inExtent (2, 2, 2) (to_chunk 32 (0, 32, 0)) = true ∧
    VoxelLevel.get_voxel 32
      (VoxelLevel.set_voxel 32 (VoxelLevel.new Nat (2, 2, 2)) (0, 32, 0) 7) (64, 0, 0) =
      some 7 := by decide

/-- C1 (amended): out-of-extent accesses never fault; `get_voxel` returns absent
and `set_voxel` leaves the level unchanged exactly when the flattened chunk
index falls outside the chunk array — a coordinate whose flattened index
aliases into the array reads/writes the aliased slot instead. -/
theorem c1_amended {V : Type} [Inhabited V] (cs : Nat) (s : Nat × Nat × Nat)
    (l : List (ChunkData V)) (pos : Nat × Nat × Nat) (v : V)
    (h : l.length ≤ linearize s (to_chunk cs pos)) :
    VoxelLevel.get_voxel cs ⟨s, some l⟩ pos = none ∧
    VoxelLevel.set_voxel cs ⟨s, some l⟩ pos v = ⟨s, some l⟩ := by
  constructor
  · simp only [VoxelLevel.get_voxel, Option.some_bind, List.get?_eq_none.mpr h,
      Option.map_none']
  · simp only [VoxelLevel.set_voxel, List.get?_eq_none.mpr h]

/-- C1 (witness): the amended theorem at `CHUNK_SIZE = 32`, a `2×2×2` level with
its 16 slots, and world voxel `(0,0,128)` (chunk `(0,0,4)`, flattened index 16). -/
theorem c1_amended_witness :
    ((List.replicate 16 (default : ChunkData Nat)).length ≤
      linearize (2, 2, 2) (to_chunk 32 (0, 0, 128))) ∧
    (VoxelLevel.get_voxel 32
        (⟨(2, 2, 2), some (List.replicate 16 default)⟩ : VoxelLevel Nat) (0, 0, 128) = none ∧
     VoxelLevel.set_voxel 32
        (⟨(2, 2, 2), some (List.replicate 16 default)⟩ : VoxelLevel Nat) (0, 0, 128) 9 =
       ⟨(2, 2, 2), some (List.replicate 16 default)⟩) :=
  ⟨by decide,
   c1_amended 32 (2, 2, 2) (List.replicate 16 (default : ChunkData Nat)) (0, 0, 128) 9
     (by decide)⟩

/-- C2: evaluating `VoxelLevel::new` at `level_size = (2,2,2)`: the chunk array
has 16 slots, not the claimed `2*2*2 = 8` — `vec![default; 8]` is followed by 8
`Vec::insert`s of further defaults, which grow the vector. -/
theorem c2_new_length :
    ((VoxelLevel.new Nat (2, 2, 2)).loaded_chunks.getD []).length = 16 ∧
    (16 : Nat) ≠ 2 * 2 * 2 := by decide

/-- C3 (counterexample): with `CHUNK_SIZE = 32`, world coordinate `33554431`
(`2^25 - 1`) rounds to `33554432` under `u32 as f32`, so `to_chunk` returns
`1048576` instead of the floor quotient `1048575`, and the reconstruction
identity `to_chunk * CHUNK_SIZE + to_relative = w` fails (it yields `33554463`). -/
theorem c3_counterexample :
    to_chunk1 32 33554431 ≠ 33554431 / 32 ∧
    to_chunk1 32 33554431 * 32 + to_relative1 32 33554431 ≠ 33554431 := by decide

/-- C3 (amended): for `CHUNK_SIZE` a power of two (at most `2^24`) and world
coordinates below `2^24` — the range on which the binary32 pipeline inside
`to_chunk` is exact — `to_relative` lands in `[0, CHUNK_SIZE)`, `to_chunk` is
componentwise floor division, and `to_chunk(w)*CHUNK_SIZE + to_relative(w) = w`
componentwise.  Beyond `2^24` the f32 rounding breaks the identity
(see the counterexample). -/
theorem c3_amended (j : ℕ) (p : Nat × Nat × Nat) (_hj : j ≤ 24)
    (h1 : p.1 < 2^24) (h2 : p.2.1 < 2^24) (h3 : p.2.2 < 2^24) :
    ((to_relative (2^j) p).1 < 2^j ∧ (to_relative (2^j) p).2.1 < 2^j ∧
      (to_relative (2^j) p).2.2 < 2^j) ∧
    to_chunk (2^j) p = (p.1 / 2^j, p.2.1 / 2^j, p.2.2 / 2^j) ∧
    ((to_chunk (2^j) p).1 * 2^j + (to_relative (2^j) p).1 = p.1 ∧
     (to_chunk (2^j) p).2.1 * 2^j + (to_relative (2^j) p).2.1 = p.2.1 ∧
     (to_chunk (2^j) p).2.2 * 2^j + (to_relative (2^j) p).2.2 = p.2.2) := by
  obtain ⟨x, y, z⟩ := p
  have hpos : 0 < 2^j := Nat.pos_pow_of_pos j (by norm_num)
  refine ⟨⟨to_relative1_lt _ _ hpos, to_relative1_lt _ _ hpos, to_relative1_lt _ _ hpos⟩,
    ?_, to_chunk1_identity j x h1, to_chunk1_identity j y h2, to_chunk1_identity j z h3⟩
  show (to_chunk1 (2^j) x, to_chunk1 (2^j) y, to_chunk1 (2^j) z) = _
  rw [to_chunk1_pow2 j x h1, to_chunk1_pow2 j y h2, to_chunk1_pow2 j z h3]

/-- C3 (witness): the amended theorem at `CHUNK_SIZE = 32` and `w = (100, 33, 5)`. -/
theorem c3_amended_witness :
    ((5 : ℕ) ≤ 24 ∧ (100 : ℕ) < 2^24 ∧ (33 : ℕ) < 2^24 ∧ (5 : ℕ) < 2^24) ∧
    (((to_relative (2^5) (100, 33, 5)).1 < 2^5 ∧ (to_relative (2^5) (100, 33, 5)).2.1 < 2^5 ∧
       (to_relative (2^5) (100, 33, 5)).2.2 < 2^5) ∧
     to_chunk (2^5) (100, 33, 5) = (100 / 2^5, 33 / 2^5, 5 / 2^5) ∧
     ((to_chunk (2^5) (100, 33, 5)).1 * 2^5 + (to_relative (2^5) (100, 33, 5)).1 = 100 ∧
      (to_chunk (2^5) (100, 33, 5)).2.1 * 2^5 + (to_relative (2^5) (100, 33, 5)).2.1 = 33 ∧
      (to_chunk (2^5) (100, 33, 5)).2.2 * 2^5 + (to_relative (2^5) (100, 33, 5)).2.2 = 5)) :=
  ⟨by decide,
   c3_amended 5 (100, 33, 5) (by decide) (by decide) (by decide) (by decide)⟩

/-- C4 (counterexample): with `tMax = (1, 5, 1)` — x and z exactly tied at the
minimum — the claim's precedence would advance x (current voxel becomes
`(1,0,0)`); the source's nested comparisons advance z instead (current voxel
becomes `(0,0,1)`, face `(0,0,-1)`). -/
theorem c4_counterexample :
    advance (1, 1, 1) (FQ.fin 1, FQ.fin 1, FQ.fin 1) 100
      { tmax := (FQ.fin 1, FQ.fin 5, FQ.fin 1), current := (0, 0, 0),
        face := (0, 0, 0), lastmax := 0 } =
      some { tmax := (FQ.fin 1, FQ.fin 5, FQ.fin 2), current := (0, 0, 1),
             face := (0, 0, -1), lastmax := 1 } ∧
    ((0 : ℚ), (0 : ℚ), (1 : ℚ)) ≠ ((1 : ℚ), (0 : ℚ), (0 : ℚ)) := by decide

/-- C4 (amended): the advancing step is dispatched on `axisOf`: x advances only
when `tmax.x` is strictly below both `tmax.y` and `tmax.z`; y advances when x is
not strictly below y and `tmax.y` is strictly below `tmax.z`; z advances in
every other case — so on exact ties at the minimum z beats y and y/z beat x
(precedence z > y > x, the reverse of the claimed x > y > z), as the three
concrete tie instances show. -/
theorem c4_amended :
    (∀ step tdelta radius st, advance step tdelta radius st =
        advanceAlong (axisOf st.tmax) step tdelta radius st) ∧
    axisOf (FQ.fin 1, FQ.fin 5, FQ.fin 1) = 2 ∧
    axisOf (FQ.fin 1, FQ.fin 1, FQ.fin 5) = 1 ∧
    axisOf (FQ.fin 1, FQ.fin 1, FQ.fin 1) = 2 :=
  ⟨advance_eq_advanceAlong, by decide, by decide, by decide⟩

/-- C5 (counterexample): at the opposite corner `(1,1,1)` of a `2×2×2` level,
the neighbor `(2,1,0)` is outside the extent (`x = 2 ≥ 2`) but is reported
present: its flattened index `4` falls inside the chunk array. -/
theorem c5_counterexample :
    inExtent (2, 2, 2) (2, 1, 0) = false ∧
    (((VoxelLevel.new Nat (2, 2, 2)).get_chunk_neighbors_pos (1, 1, 1)).getD []).contains
      (some (2, 1, 0)) = true := by decide

/-- C5 (amended): a candidate neighbor is reported present iff all its
components are non-negative and its flattened index falls inside the chunk
array — there is no per-axis upper bound, so out-of-extent neighbors whose flat
index aliases into the (doubled) array are present.  At chunk `(0,0,0)` of a
`2×2×2` level the claim's classification does hold (exactly the 7 non-negative
neighbors, all in-extent, are present); at the opposite corner `(1,1,1)` even
the fully out-of-extent `(2,2,2)` is reported present. -/
theorem c5_amended :
    (∀ (V : Type) (lvl : VoxelLevel V) (cp : Nat × Nat × Nat),
      lvl.get_chunk_neighbors_pos cp = lvl.loaded_chunks.map (fun l =>
        (neighborOffsets.map (fun o =>
          (u32toI32 cp.1 + o.1, u32toI32 cp.2.1 + o.2.1, u32toI32 cp.2.2 + o.2.2))).map (fun n =>
          if 0 ≤ n.1 ∧ 0 ≤ n.2.1 ∧ 0 ≤ n.2.2 ∧
             linearize lvl.level_size (wrap32 n.1, wrap32 n.2.1, wrap32 n.2.2) < l.length
          then some (wrap32 n.1, wrap32 n.2.1, wrap32 n.2.2) else none))) ∧
    (VoxelLevel.new Nat (2, 2, 2)).get_chunk_neighbors_pos (0, 0, 0) =
      some [none, none, none, none, none, none, none, none, none,
            none, none, none, none, some (0, 0, 1), none, some (0, 1, 0), some (0, 1, 1),
            none, none, none, none, some (1, 0, 0), some (1, 0, 1), none,
            some (1, 1, 0), some (1, 1, 1)] ∧
    (((VoxelLevel.new Nat (2, 2, 2)).get_chunk_neighbors_pos (1, 1, 1)).getD []).contains
      (some (2, 2, 2)) = true :=
  ⟨fun _ lvl cp => neighbors_pos_char lvl cp, by decide, by decide⟩

/-- C6: the advancing step terminates with no-hit exactly when the chosen
axis's `tMax` is strictly greater than the rescaled radius (so a `tMax` exactly
equal to the radius is still stepped into); concretely, the ray from
`(0.5,0.5,0.5)` along `(1,0,0)` with radius `3/2` crosses into voxel `(2,0,0)`
at `tMax = 3/2 = radius` and still returns it as a hit at distance `3/2`. -/
theorem c6_strict_radius :
    (∀ step tdelta radius st,
      (advance step tdelta radius st = none ↔
        FQ.bgt (tmaxAt (axisOf st.tmax) st.tmax) radius = true)) ∧
    raycast_world 32 (1/2, 1/2, 1/2) (1, 0, 0) (3/2) (fun vp => decide (vp = (2, 0, 0))) =
      some ((0, 0, 0), (2, 0, 0), (-1, 0, 0), 3/2) :=
  ⟨advance_none_iff, by decide⟩

/-- Decomposition of world voxel `(2,0,0)` for any `CHUNK_SIZE > 2`:
relative `(2,0,0)` in chunk `(0,0,0)`. -/
theorem to_offsets_two (cs : Nat) (hcs : 2 < cs) :
    to_offsets cs (2, 0, 0) = ((2, 0, 0), (0, 0, 0)) := by
  rw [to_offsets]
  have h2 : (2:ℤ).emod cs = 2 := Int.emod_eq_of_lt (by norm_num) (by exact_mod_cast hcs)
  have h0 : (0:ℤ).emod cs = 0 := Int.zero_emod _
  have hf2 : (2:ℤ).fdiv cs = 0 := by
    rw [Int.fdiv_eq_ediv _ (by positivity)]
    exact Int.ediv_eq_zero_of_lt (by norm_num) (by exact_mod_cast hcs)
  have hf0 : (0:ℤ).fdiv cs = 0 := Int.zero_fdiv _
  rw [h2, h0, hf2, hf0]
  rfl

/-- C7: in a world where exactly voxel `(2,0,0)` is occupied, the ray from
`(0.5,0.5,0.5)` along `(1,0,0)` with radius `5` hits the decomposition of world
voxel `(2,0,0)` — chunk `(0,0,0)`, relative `(2,0,0)` for any `CHUNK_SIZE > 2` —
with face normal `(-1,0,0)` and distance exactly `3/2`. -/
theorem c7_scenario (cs : Nat) (hcs : 2 < cs) :
    raycast_world cs (1/2, 1/2, 1/2) (1, 0, 0) 5 (fun vp => decide (vp = (2, 0, 0))) =
      some ((0, 0, 0), (2, 0, 0), (-1, 0, 0), 3/2) := by
  have h0 : raycast_world cs (1/2, 1/2, 1/2) (1, 0, 0) 5 (fun vp => decide (vp = (2, 0, 0))) =
      some ((to_offsets cs (2, 0, 0)).2, (to_offsets cs (2, 0, 0)).1, (-1, 0, 0), 3/2) := rfl
  rw [h0, to_offsets_two cs hcs]

/-- C7 (witness): the scenario at `CHUNK_SIZE = 32`. -/
theorem c7_scenario_witness :
    2 < 32 ∧
    raycast_world 32 (1/2, 1/2, 1/2) (1, 0, 0) 5 (fun vp => decide (vp = (2, 0, 0))) =
      some ((0, 0, 0), (2, 0, 0), (-1, 0, 0), 3/2) :=
  ⟨by decide, c7_scenario 32 (by decide)⟩

/-- C8: a zero direction vector makes `raycast_world` return no hit immediately,
for every origin, radius, chunk size and occupancy predicate — the zero check
fires before the traversal loop ever consults the predicate. -/
theorem c8_zero_direction (cs : Nat) (origin : ℚ × ℚ × ℚ) (radius : ℚ)
    (pred : ℤ × ℤ × ℤ → Bool) :
    raycast_world cs origin ((0:ℚ), (0:ℚ), (0:ℚ)) radius pred = none := rfl

/-- C9 (counterexample): a texture whose name has no suffix does not fill the 6
slots when an entry for that name already exists — processing `"stone"` with
rectangle `7` against a registry holding `[5,5,5,5,5,5]` for `"stone"` leaves
the entry unchanged; the new rectangle lands nowhere. -/
theorem c9_counterexample :
    (load_textures_apply
      (fun k => if k = ['s','t','o','n','e'] then some [5, 5, 5, 5, 5, 5] else none)
      ['s','t','o','n','e'] (7 : Nat)) ['s','t','o','n','e'] = some [5, 5, 5, 5, 5, 5] ∧
    (5 : Nat) ≠ 7 := by decide

/-- C9 (amended): when an entry for the base name already exists, each suffix
overwrites exactly its slots — `_side` slots 0,1,4,5; `_west` 0; `_east` 1;
`_south` 4; `_north` 5; `_up` 3; `_down` 2 — leaving the rest as they were,
and a suffix-free name changes nothing.  When no entry exists, the six slots
are first default-initialized with this texture's rectangle, so the
non-selected slots also receive it (a fresh `_side`, like a fresh suffix-free
name, fills all six). -/
theorem c9_amended {α : Type} (r a0 a1 a2 a3 a4 a5 : α) :
    (load_textures_apply (fun _ => none) ['s','t','o','n','e'] r) ['s','t','o','n','e'] =
      some [r, r, r, r, r, r] ∧
    (load_textures_apply (fun _ => none) ['s','t','o','n','e','_','s','i','d','e'] r)
      ['s','t','o','n','e'] = some [r, r, r, r, r, r] ∧
    (load_textures_apply
      (fun k => if k = ['s','t','o','n','e'] then some [a0,a1,a2,a3,a4,a5] else none)
      ['s','t','o','n','e','_','s','i','d','e'] r) ['s','t','o','n','e'] =
      some [r, r, a2, a3, r, r] ∧
    (load_textures_apply
      (fun k => if k = ['s','t','o','n','e'] then some [a0,a1,a2,a3,a4,a5] else none)
      ['s','t','o','n','e','_','w','e','s','t'] r) ['s','t','o','n','e'] =
      some [r, a1, a2, a3, a4, a5] ∧
    (load_textures_apply
      (fun k => if k = ['s','t','o','n','e'] then some [a0,a1,a2,a3,a4,a5] else none)
      ['s','t','o','n','e','_','e','a','s','t'] r) ['s','t','o','n','e'] =
      some [a0, r, a2, a3, a4, a5] ∧
    (load_textures_apply
      (fun k => if k = ['s','t','o','n','e'] then some [a0,a1,a2,a3,a4,a5] else none)
      ['s','t','o','n','e','_','s','o','u','t','h'] r) ['s','t','o','n','e'] =
      some [a0, a1, a2, a3, r, a5] ∧
    (load_textures_apply
      (fun k => if k = ['s','t','o','n','e'] then some [a0,a1,a2,a3,a4,a5] else none)
      ['s','t','o','n','e','_','n','o','r','t','h'] r) ['s','t','o','n','e'] =
      some [a0, a1, a2, a3, a4, r] ∧
    (load_textures_apply
      (fun k => if k = ['s','t','o','n','e'] then some [a0,a1,a2,a3,a4,a5] else none)
      ['s','t','o','n','e','_','u','p'] r) ['s','t','o','n','e'] =
      some [a0, a1, a2, r, a4, a5] ∧
    (load_textures_apply
      (fun k => if k = ['s','t','o','n','e'] then some [a0,a1,a2,a3,a4,a5] else none)
      ['s','t','o','n','e','_','d','o','w','n'] r) ['s','t','o','n','e'] =
      some [a0, a1, r, a3, a4, a5] ∧
    (load_textures_apply
      (fun k => if k = ['s','t','o','n','e'] then some [a0,a1,a2,a3,a4,a5] else none)
      ['s','t','o','n','e'] r) ['s','t','o','n','e'] =
      some [a0, a1, a2, a3, a4, a5] :=
  ⟨rfl, rfl, rfl, rfl, rfl, rfl, rfl, rfl, rfl, rfl⟩

/-- C10: in `VoxelLevel::raycast`'s occupancy closure a negative voxel
coordinate is not intrinsically unoccupied: each `i32` component wraps to `u32`
(`-1` becomes `4294967295`) and `get_voxel` is queried at the wrapped
coordinate — in a level wide enough that the wrapped coordinate's chunk
`(2^27, 0, 0)` falls inside the chunk array, the closure reports voxel
`(-1, 0, 0)` occupied because the wrapped lookup finds a non-empty voxel. -/
theorem c10_wrapping :
    wrap32 (-1) = 4294967295 ∧
    VoxelLevel.raycastOccupied 32 (fun v => decide (v = 0))
      ⟨(134217729, 1, 1), some (List.replicate 134217729 ⟨fun _ _ _ => 1⟩)⟩
      ((-1 : ℤ), (0 : ℤ), (0 : ℤ)) = true := by
  refine ⟨by decide, ?_⟩
  have hidx : linearize (134217729, 1, 1)
      (to_chunk 32 (wrap32 (-1), wrap32 0, wrap32 0)) = 134217728 := by decide
  have hrel : to_relative 32 (wrap32 (-1), wrap32 0, wrap32 0) = (31, 0, 0) := by decide
  have hget : VoxelLevel.get_voxel 32
      (⟨(134217729, 1, 1), some (List.replicate 134217729 ⟨fun _ _ _ => 1⟩)⟩ : VoxelLevel Nat)
      (wrap32 (-1), wrap32 0, wrap32 0) = some 1 := by
    simp only [VoxelLevel.get_voxel, hidx, hrel]
    rw [Option.some_bind]
    rw [List.get?_eq_getElem?, List.getElem?_replicate_of_lt (by norm_num)]
    rfl
  show ((VoxelLevel.get_voxel 32
      (⟨(134217729, 1, 1), some (List.replicate 134217729 ⟨fun _ _ _ => 1⟩)⟩ : VoxelLevel Nat)
      (wrap32 (-1), wrap32 0, wrap32 0)).map
        (fun voxel => !(decide (voxel = 0)))).getD false = true
  rw [hget]
  rfl
